import Mathlib

/-!
Verification of the Backup & Restore Manager of the mmsmanagement
repository (`src/backup_manager.py`), against its natural-language
specification.

The file-system state is shallowly embedded as an association list from
paths (lists of components) to file contents with a modification time.
Directories are implicit: a directory "exists" when some file lies
strictly under it (an empty directory behaves exactly like a missing one
for every operation of the backup manager, since `os.walk` of an empty
tree yields no files and `glob` of a missing directory yields no
matches).

Zip archives are modelled as a `FileData` constructor holding the list
of archive entries (arcname components, stored date_time, payload
bytes), since `zipfile` reads back exactly the entries that were
written.  The on-disk byte image of an archive is abstracted as the
concatenation of its entry payloads (`dataBytes`); no claim depends on
the exact compressed size.

`shutil.copy2` preserves the source file's modification time (it copies
metadata), and `zipfile.ZipFile.extract` does NOT restore an entry's
stored timestamp (extracted files get the current time); both facts are
modelled faithfully because the listing order of backups depends on
them.

I/O failures that the Python code catches per-call are modelled by
boolean oracles: `statFail` (a file whose `stat` raises in
`list_backups`), `uf` (an `unlink` that raises), and `cf` (a
`shutil.copy2` that raises).  Timestamps taken by `datetime.now()` are
supplied as explicit parameters (`ts` for the formatted filename string,
`now` for the wall-clock modification time of freshly written files).
-/

/-- A path, as its list of components from the root. -/
abbrev FsPath := List String

/-- Contents of a file: either raw bytes, or a zip archive holding a list
of entries (arcname components, stored date_time, payload bytes). -/
inductive FileData where
  | bytes (bs : List Nat) : FileData
  | zip (entries : List (List String × Nat × List Nat)) : FileData
deriving DecidableEq

/-- A file on disk: its data and its last-modified time (`st_mtime`). -/
structure FileInfo where
  data : FileData
  mtime : Nat
deriving DecidableEq

/-- The file-system state: an association list from paths to files.
The list order stands for the (unspecified) directory enumeration order
of `glob`/`os.walk`. -/
abbrev FS := List (FsPath × FileInfo)

/-- Look up the file stored at a path (first match). -/
def fsFind : FS → FsPath → Option FileInfo
  | [], _ => none
  | e :: rest, p => if e.1 = p then some e.2 else fsFind rest p

/-- `Path.exists()` for a regular file. -/
def fsExists (fs : FS) (p : FsPath) : Bool :=
  (fsFind fs p).isSome

/-- Remove every entry stored at a path (`Path.unlink`). -/
def fsRemove : FS → FsPath → FS
  | [], _ => []
  | e :: rest, p => if e.1 = p then fsRemove rest p else e :: fsRemove rest p

/-- Create or overwrite the file at a path. -/
def fsWrite (fs : FS) (p : FsPath) (fi : FileInfo) : FS :=
  (p, fi) :: fsRemove fs p

/-- Boolean list-prefix test (used for "lies under a directory"). -/
def isPre {α : Type} [DecidableEq α] : List α → List α → Bool
  | [], _ => true
  | _ :: _, [] => false
  | a :: as, b :: bs => decide (a = b) && isPre as bs

/-- `p` is a file strictly inside directory `d`. -/
def underDir (d p : FsPath) : Bool :=
  isPre d p && decide (d.length < p.length)

/-- All files strictly under a directory, in enumeration order
(`os.walk`). -/
def walkFiles (fs : FS) (d : FsPath) : FS :=
  fs.filter (fun e => underDir d e.1)

/-- `Path.exists()` for a directory: some file lies strictly under it. -/
def dirExists (fs : FS) (d : FsPath) : Bool :=
  fs.any (fun e => underDir d e.1)

/-- Write a batch of files in order (used to model sequential
`zipf.extract` calls). -/
def writeAll (fs : FS) (l : List (FsPath × FileInfo)) : FS :=
  l.foldl (fun a e => fsWrite a e.1 e.2) fs

/-- `Path.parent`. -/
def parentDir (p : FsPath) : FsPath := p.dropLast

/-- `Path.name` (base name of the final component). -/
def baseName (p : FsPath) : String := p.getLastD ""

/-- `pathlib.PurePath.suffix` on the characters of a name: the part from
the last dot, when that dot is neither the first nor the last character;
empty otherwise. -/
def pySuffixChars (cs : List Char) : List Char :=
  if (cs.reverse.takeWhile (fun c => c != '.')).length = cs.length ∨
     (cs.reverse.takeWhile (fun c => c != '.')).length = 0 ∨
     (cs.reverse.takeWhile (fun c => c != '.')).length = cs.length - 1 then []
  else '.' :: (cs.reverse.take ((cs.reverse.takeWhile (fun c => c != '.')).length)).reverse

/-- `pathlib.PurePath.stem` on the characters of a name. -/
def pyStemChars (cs : List Char) : List Char :=
  cs.take (cs.length - (pySuffixChars cs).length)

/-- `Path.suffix` of a path. -/
def pathSuffix (p : FsPath) : String :=
  String.mk (pySuffixChars (baseName p).data)

/-- `Path.stem` of a path. -/
def pathStem (p : FsPath) : String :=
  String.mk (pyStemChars (baseName p).data)

/-- Boolean "ends with" on characters (`glob` pattern `*.ext`). -/
def endsWithChars (sfx cs : List Char) : Bool :=
  isPre sfx.reverse cs.reverse

/-- Raw byte image of a file's data.  For archives this abstracts the
on-disk representation as the concatenation of the entry payloads. -/
def dataBytes : FileData → List Nat
  | FileData.bytes bs => bs
  | FileData.zip es => (es.map (fun e => e.2.2)).foldr (fun a b => a ++ b) []

/-- `stat().st_size` of a file. -/
def dataSize (d : FileData) : Nat := (dataBytes d).length

/-- Two-decimal fixed-point rendering of `num / den` (the model of
Python's `f"{x:.2f}"`; float rounding is abstracted as truncation, which
no claim depends on). -/
def fmt2 (num den : Nat) : String :=
  let h := num * 100 / den
  let frac := h % 100
  toString (h / 100) ++ "." ++ (if frac < 10 then "0" ++ toString frac else toString frac)

/-- `BackupManager._get_readable_size` (src/backup_manager.py lines
297-303): walk the binary units, dividing by 1024 until below it. -/
def get_readable_size (size_bytes : Nat) : String :=
  getReadableSizeAux size_bytes ["B", "KB", "MB", "GB", "TB"] 1
where
  getReadableSizeAux (n : Nat) : List String → Nat → String
    | [], den => fmt2 n den ++ " PB"
    | u :: rest, den =>
        if n < 1024 * den then fmt2 n den ++ " " ++ u
        else getReadableSizeAux n rest (den * 1024)

/-- The manager's configured locations (`__init__`, src/backup_manager.py
lines 16-24): `backup_root` = `config.BACKUP_PATH`, `database_path` =
`config.DATABASE_PATH`, `documents_path` = `config.DOCUMENT_ROOT`.
`cwd` models the process working directory, against which the relative
path `Path("config.ini")` is resolved. -/
structure BackupManager where
  backup_root : FsPath
  database_path : FsPath
  documents_path : FsPath
  cwd : FsPath

/-- The archive filename `f"{backup_name}_{timestamp}.zip"` /
`f"backup_{timestamp}.zip"` (lines 40-45). -/
def fullBackupFilename (backup_name : Option String) (ts : String) : String :=
  (match backup_name with
   | some n => n
   | none => "backup") ++ "_" ++ ts ++ ".zip"

/-- `BackupManager.create_backup` (lines 26-77).  Opening
`zipfile.ZipFile(backup_path, "w")` creates the archive file on disk at
once; the database-existence check happens only afterwards, inside the
`with` block, so the early `return False, None, "Database file not
found"` leaves an empty archive behind.  Returns
`(state, success, backup_file_path, message)`. -/
def create_backup (m : BackupManager) (fs : FS) (ts : String) (now : Nat)
    (include_documents include_config : Bool) (backup_name : Option String) :
    FS × Bool × Option FsPath × String :=
  let fn := fullBackupFilename backup_name ts
  let bp := m.backup_root ++ [fn]
  let fs1 := fsWrite fs bp ⟨FileData.zip [], now⟩
  match fsFind fs1 m.database_path with
  | none => (fs1, false, none, "Database file not found")
  | some dbi =>
      let dbEntry : List String × Nat × List Nat :=
        (["database", baseName m.database_path], dbi.mtime, dataBytes dbi.data)
      let docEntries :=
        if include_documents && dirExists fs1 m.documents_path then
          (walkFiles fs1 m.documents_path).map
            (fun e => (e.1.drop (parentDir m.documents_path).length, e.2.mtime, dataBytes e.2.data))
        else []
      let cfgEntries :=
        if include_config then
          match fsFind fs1 (m.cwd ++ ["config.ini"]) with
          | some ci => [(["config.ini"], ci.mtime, dataBytes ci.data)]
          | none => []
        else []
      let es := dbEntry :: (docEntries ++ cfgEntries)
      let fs2 := fsWrite fs1 bp ⟨FileData.zip es, now⟩
      (fs2, true, some bp,
        "Backup created successfully: " ++ fn ++ " (" ++
          get_readable_size (dataSize (FileData.zip es)) ++ ")")

/-- `BackupManager.create_database_only_backup` (lines 79-102): checks
the database exists, then `shutil.copy2` to
`db_backup_{timestamp}.db`.  `copy2` preserves metadata, so the
artifact's mtime is the live database's mtime, not the call time. -/
def create_database_only_backup (m : BackupManager) (fs : FS) (ts : String) :
    FS × Bool × Option FsPath × String :=
  let fn := "db_backup_" ++ ts ++ ".db"
  let bp := m.backup_root ++ [fn]
  match fsFind fs m.database_path with
  | none => (fs, false, none, "Database file not found")
  | some dbi =>
      let fs1 := fsWrite fs bp dbi
      (fs1, true, some bp,
        "Database backup created: " ++ fn ++ " (" ++
          get_readable_size (dataSize dbi.data) ++ ")")

/-- One listed backup (the dictionary built in `list_backups`,
lines 122-129). -/
structure BackupRecord where
  filename : String
  path : FsPath
  size : String
  size_bytes : Nat
  created : Nat
  btype : String
deriving DecidableEq

/-- The `glob("*.zip") + glob("*.db")` scan of `backup_root`
(line 117): non-recursive, matching on the file name's ending. -/
def globMatches (m : BackupManager) (fs : FS) : FS :=
  fs.filter (fun e =>
    decide (parentDir e.1 = m.backup_root) && endsWithChars ".zip".data (baseName e.1).data)
  ++ fs.filter (fun e =>
    decide (parentDir e.1 = m.backup_root) && endsWithChars ".db".data (baseName e.1).data)

/-- Build one record from a matched file, or skip it when its `stat`
raises (the `except Exception: continue` of lines 130-131). -/
def mkBackupRecord (statFail : FsPath → Bool) (e : FsPath × FileInfo) :
    Option BackupRecord :=
  if statFail e.1 then none
  else some
    { filename := baseName e.1
      path := e.1
      size := get_readable_size (dataSize e.2.data)
      size_bytes := dataSize e.2.data
      created := e.2.mtime
      btype := if pathSuffix e.1 = ".zip" then "Full Backup" else "Database Only" }

/-- Insert into a descending-by-`created` list, after any element with
an equal or larger key (this is what a stable descending sort does with
later-enumerated elements). -/
def insertDescRec (r : BackupRecord) : List BackupRecord → List BackupRecord
  | [] => [r]
  | b :: rest => if b.created < r.created then r :: b :: rest else b :: insertDescRec r rest

/-- Python's `list.sort(key=created, reverse=True)`: a stable descending
sort, modelled as stable insertion sort (observationally identical). -/
def sortByCreatedDesc (l : List BackupRecord) : List BackupRecord :=
  l.foldl (fun acc r => insertDescRec r acc) []

/-- `BackupManager.list_backups` (lines 104-136).  The
`backup_root.exists()` early return is omitted: `__init__` creates the
directory, and globbing a missing directory yields `[]` anyway. -/
def list_backups (m : BackupManager) (statFail : FsPath → Bool) (fs : FS) :
    List BackupRecord :=
  sortByCreatedDesc ((globMatches m fs).filterMap (mkBackupRecord statFail))

/-- `shutil.copy2`: copies content and metadata (including mtime);
`cf src dst = true` models the call raising an exception. -/
def copy2 (cf : FsPath → FsPath → Bool) (fs : FS) (src dst : FsPath) : Option FS :=
  if cf src dst then none
  else match fsFind fs src with
    | none => none
    | some fi => some (fsWrite fs dst fi)

/-- The safety-copy path `{stem}_before_restore.db` of
`_restore_database_only` (line 174). -/
def beforeRestorePath (m : BackupManager) : FsPath :=
  parentDir m.database_path ++ [pathStem m.database_path ++ "_before_restore.db"]

/-- The safety-copy path `{stem}_safety_backup.db` of
`_restore_full_backup` (line 190). -/
def safetyBackupPath (m : BackupManager) : FsPath :=
  parentDir m.database_path ++ [pathStem m.database_path ++ "_safety_backup.db"]

/-- `BackupManager._restore_database_only` (lines 169-183): safety-copy
the live database (if it exists), then copy the artifact over it.  An
exception in either copy is caught, returning the state reached so
far. -/
def restore_database_only (m : BackupManager) (cf : FsPath → FsPath → Bool)
    (fs : FS) (bf : FsPath) : FS × Bool × String :=
  match (if fsExists fs m.database_path
         then copy2 cf fs m.database_path (beforeRestorePath m)
         else some fs) with
  | none => (fs, false, "Database restore failed: copy error")
  | some fs1 =>
      match copy2 cf fs1 bf m.database_path with
      | none => (fs1, false, "Database restore failed: copy error")
      | some fs2 => (fs2, true, "Database restored successfully from " ++ baseName bf)

/-- Does an archive entry's name start with `c ++ "/"` (the
`f.startswith("database/")` tests of lines 195 and 201)?  On component
lists this is: first component is `c` and there is at least one more. -/
def arcHeadIs (c : String) (arc : List String) : Bool :=
  decide (arc.headD "" = c) && decide (2 ≤ arc.length)

/-- `BackupManager._restore_full_backup` (lines 185-212): safety-copy
the live database, then extract `database/...` entries to
`database_path.parent.parent`, `documents/...` entries to
`documents_path.parent`, and optionally `config.ini` to the working
directory.  `extract` writes entry payload bytes with the current
time `now` (it does not restore the stored timestamp). -/
def restore_full_backup (m : BackupManager) (cf : FsPath → FsPath → Bool)
    (now : Nat) (fs : FS) (bf : FsPath) (restore_documents restore_config : Bool) :
    FS × Bool × String :=
  match (if fsExists fs m.database_path
         then copy2 cf fs m.database_path (safetyBackupPath m)
         else some fs) with
  | none => (fs, false, "Full restore failed: copy error")
  | some fs1 =>
      match fsFind fs1 bf with
      | some ⟨FileData.zip es, _⟩ =>
          let dbT := es.filter (fun e => arcHeadIs "database" e.1)
          let fs2 := writeAll fs1 (dbT.map
            (fun e => (parentDir (parentDir m.database_path) ++ e.1,
                       (⟨FileData.bytes e.2.2, now⟩ : FileInfo))))
          let docT := if restore_documents
                      then es.filter (fun e => arcHeadIs "documents" e.1)
                      else []
          let fs3 := writeAll fs2 (docT.map
            (fun e => (parentDir m.documents_path ++ e.1,
                       (⟨FileData.bytes e.2.2, now⟩ : FileInfo))))
          let fs4 := if restore_config then
              match es.find? (fun e => decide (e.1 = ["config.ini"])) with
              | some e => fsWrite fs3 (m.cwd ++ ["config.ini"]) ⟨FileData.bytes e.2.2, now⟩
              | none => fs3
            else fs3
          (fs4, true, "System restored successfully from " ++ baseName bf)
      | some _ => (fs1, false, "Full restore failed: bad zip file")
      | none => (fs1, false, "Full restore failed: file missing")

/-- `BackupManager.restore_backup` (lines 138-167): dispatch on the
artifact's file extension. -/
def restore_backup (m : BackupManager) (cf : FsPath → FsPath → Bool)
    (now : Nat) (fs : FS) (backup_path : FsPath)
    (restore_documents restore_config : Bool) : FS × Bool × String :=
  if fsExists fs backup_path then
    if pathSuffix backup_path = ".db" then
      restore_database_only m cf fs backup_path
    else if pathSuffix backup_path = ".zip" then
      restore_full_backup m cf now fs backup_path restore_documents restore_config
    else (fs, false, "Invalid backup file format")
  else (fs, false, "Backup file not found")

/-- `BackupManager.delete_backup` (lines 214-235).  The method reads
nothing from the manager's configuration: any existing path is
unlinked.  `uf p = true` models `unlink` raising. -/
def delete_backup (uf : FsPath → Bool) (fs : FS) (backup_path : FsPath) :
    FS × Bool × String :=
  if fsExists fs backup_path then
    if uf backup_path then (fs, false, "Delete failed: unlink error")
    else (fsRemove fs backup_path, true, "Backup deleted: " ++ baseName backup_path)
  else (fs, false, "Backup file not found")

/-- The statistics dictionary of `get_backup_statistics`
(lines 246-263). -/
structure BackupStats where
  total_backups : Nat
  total_size : String
  total_size_bytes : Nat
  oldest_backup : Option Nat
  newest_backup : Option Nat
deriving DecidableEq

/-- `BackupManager.get_backup_statistics` (lines 237-263). -/
def get_backup_statistics (m : BackupManager) (statFail : FsPath → Bool) (fs : FS) :
    BackupStats :=
  match list_backups m statFail fs with
  | [] => ⟨0, "0 B", 0, none, none⟩
  | b :: bs =>
      let total := ((b :: bs).map (fun r => r.size_bytes)).sum
      ⟨(b :: bs).length, get_readable_size total, total,
        some (((b :: bs).getLast (by simp)).created), some b.created⟩

/-- `BackupManager.cleanup_old_backups` (lines 265-295): keep the
`keep_count` most recent, unlink the rest; a failing unlink is skipped
and not counted.  Returns `(state, success, deleted_count, message)`. -/
def cleanup_old_backups (m : BackupManager) (statFail : FsPath → Bool)
    (uf : FsPath → Bool) (fs : FS) (keep_count : Nat) : FS × Bool × Nat × String :=
  let backups := list_backups m statFail fs
  if backups.length ≤ keep_count then
    (fs, true, 0, "No cleanup needed. Only " ++ toString backups.length ++ " backup(s) exist.")
  else
    let td := backups.drop keep_count
    let res := td.foldl
      (fun (a : FS × Nat) b => if uf b.path then a else (fsRemove a.1 b.path, a.2 + 1))
      (fs, 0)
    (res.1, true, res.2,
      "Deleted " ++ toString res.2 ++ " old backup(s). Kept " ++
        toString keep_count ++ " most recent.")

/-- Delete a batch of paths in order (the shape of the cleanup loop). -/
def removeAllPaths (fs : FS) (ps : List FsPath) : FS :=
  ps.foldl fsRemove fs

/-! ### Association-list file-system lemmas -/

theorem fsFind_fsRemove_self (fs : FS) (p : FsPath) :
    fsFind (fsRemove fs p) p = none := by
  induction fs with
  | nil => rfl
  | cons e rest ih =>
      by_cases h : e.1 = p
      · simp [fsRemove, h, ih]
      · simp [fsRemove, h, fsFind, ih]

theorem fsFind_fsRemove_ne (fs : FS) {p q : FsPath} (h : q ≠ p) :
    fsFind (fsRemove fs p) q = fsFind fs q := by
  induction fs with
  | nil => rfl
  | cons e rest ih =>
      by_cases he : e.1 = p
      · rw [show fsRemove (e :: rest) p = fsRemove rest p by simp [fsRemove, he]]
        rw [ih]
        have h2 : ¬ (e.1 = q) := fun hq => h (hq.symm.trans he)
        simp [fsFind, h2]
      · rw [show fsRemove (e :: rest) p = e :: fsRemove rest p by simp [fsRemove, he]]
        by_cases hq : e.1 = q
        · simp [fsFind, hq]
        · simp [fsFind, hq, ih]

theorem fsFind_fsWrite_self (fs : FS) (p : FsPath) (fi : FileInfo) :
    fsFind (fsWrite fs p fi) p = some fi := by
  simp [fsWrite, fsFind]

theorem fsFind_fsWrite_ne (fs : FS) {p q : FsPath} (fi : FileInfo) (h : q ≠ p) :
    fsFind (fsWrite fs p fi) q = fsFind fs q := by
  have : p ≠ q := fun hq => h hq.symm
  simp [fsWrite, fsFind, this, fsFind_fsRemove_ne fs h]

theorem fsFind_fsWrite (fs : FS) (p q : FsPath) (fi : FileInfo) :
    fsFind (fsWrite fs p fi) q = if q = p then some fi else fsFind fs q := by
  by_cases h : q = p
  · rw [h]; simp [fsFind_fsWrite_self]
  · simp [h, fsFind_fsWrite_ne fs fi h]

theorem fsExists_fsWrite_self (fs : FS) (p : FsPath) (fi : FileInfo) :
    fsExists (fsWrite fs p fi) p = true := by
  simp [fsExists, fsFind_fsWrite_self]

theorem mem_fsRemove {fs : FS} {p : FsPath} {e : FsPath × FileInfo} :
    e ∈ fsRemove fs p ↔ e ∈ fs ∧ e.1 ≠ p := by
  induction fs with
  | nil => simp [fsRemove]
  | cons a rest ih =>
      by_cases h : a.1 = p
      · simp only [fsRemove, if_pos h, ih, List.mem_cons]
        constructor
        · rintro ⟨he, hne⟩; exact ⟨Or.inr he, hne⟩
        · rintro ⟨he | he, hne⟩
          · exact absurd (he ▸ h) hne
          · exact ⟨he, hne⟩
      · simp only [fsRemove, if_neg h, List.mem_cons, ih]
        constructor
        · rintro (he | ⟨he, hne⟩)
          · exact ⟨Or.inl he, he ▸ h⟩
          · exact ⟨Or.inr he, hne⟩
        · rintro ⟨he | he, hne⟩
          · exact Or.inl he
          · exact Or.inr ⟨he, hne⟩

theorem fsRemove_of_not_exists {fs : FS} {p : FsPath} (h : fsExists fs p = false) :
    fsRemove fs p = fs := by
  induction fs with
  | nil => rfl
  | cons e rest ih =>
      by_cases he : e.1 = p
      · exfalso
        simp [fsExists, fsFind, he] at h
      · simp only [fsExists, fsFind, if_neg he] at h
        simp [fsRemove, he, ih h]

theorem fsExists_of_mem {fs : FS} {e : FsPath × FileInfo} (h : e ∈ fs) :
    fsExists fs e.1 = true := by
  induction fs with
  | nil => cases h
  | cons a rest ih =>
      by_cases ha : a.1 = e.1
      · simp [fsExists, fsFind, ha]
      · rcases List.mem_cons.mp h with he | he
        · exact absurd (he ▸ rfl) ha
        · simpa [fsExists, fsFind, ha] using ih he

theorem fsFind_writeAll_of_ne {l : List (FsPath × FileInfo)} {q : FsPath}
    (h : ∀ e ∈ l, e.1 ≠ q) (fs : FS) :
    fsFind (writeAll fs l) q = fsFind fs q := by
  induction l generalizing fs with
  | nil => rfl
  | cons e rest ih =>
      have hq : q ≠ e.1 := fun hq => (h e (List.mem_cons_self e rest)) hq.symm
      calc fsFind (writeAll (fsWrite fs e.1 e.2) rest) q
          = fsFind (fsWrite fs e.1 e.2) q :=
            ih (fun x hx => h x (List.mem_cons_of_mem e hx)) _
        _ = fsFind fs q := fsFind_fsWrite_ne fs e.2 hq

theorem fsFind_writeAll_mem {l : List (FsPath × FileInfo)}
    (hnd : (l.map (fun e => e.1)).Nodup) {e : FsPath × FileInfo} (he : e ∈ l) (fs : FS) :
    fsFind (writeAll fs l) e.1 = some e.2 := by
  induction l generalizing fs with
  | nil => cases he
  | cons a rest ih =>
      rcases List.mem_cons.mp he with h | h
      · subst h
        have hnotin : ∀ x ∈ rest, x.1 ≠ e.1 := by
          intro x hx heq
          have : e.1 ∈ rest.map (fun y => y.1) := List.mem_map.mpr ⟨x, hx, heq⟩
          exact (List.nodup_cons.mp hnd).1 this
        calc fsFind (writeAll (fsWrite fs e.1 e.2) rest) e.1
            = fsFind (fsWrite fs e.1 e.2) e.1 := fsFind_writeAll_of_ne hnotin _
          _ = some e.2 := fsFind_fsWrite_self fs e.1 e.2
      · exact ih (List.nodup_cons.mp hnd).2 h _

theorem fsFind_removeAllPaths_of_not_mem {ps : List FsPath} {q : FsPath}
    (h : q ∉ ps) (fs : FS) :
    fsFind (removeAllPaths fs ps) q = fsFind fs q := by
  induction ps generalizing fs with
  | nil => rfl
  | cons p rest ih =>
      have h1 : q ≠ p := fun hq => h (hq ▸ List.mem_cons_self p rest)
      have h2 : q ∉ rest := fun hq => h (List.mem_cons_of_mem p hq)
      calc fsFind (removeAllPaths (fsRemove fs p) rest) q
          = fsFind (fsRemove fs p) q := ih h2 _
        _ = fsFind fs q := fsFind_fsRemove_ne fs h1

theorem fsFind_removeAllPaths_none {ps : List FsPath} {q : FsPath} {fs : FS}
    (h : fsFind fs q = none) :
    fsFind (removeAllPaths fs ps) q = none := by
  induction ps generalizing fs with
  | nil => exact h
  | cons p rest ih =>
      apply ih
      by_cases hq : q = p
      · rw [hq]; exact fsFind_fsRemove_self fs p
      · rw [fsFind_fsRemove_ne fs hq]; exact h

theorem fsFind_removeAllPaths_of_mem {ps : List FsPath} {q : FsPath}
    (h : q ∈ ps) (fs : FS) :
    fsFind (removeAllPaths fs ps) q = none := by
  induction ps generalizing fs with
  | nil => cases h
  | cons p rest ih =>
      rcases List.mem_cons.mp h with hq | hq
      · subst hq
        show fsFind (removeAllPaths (fsRemove fs q) rest) q = none
        exact fsFind_removeAllPaths_none (fsFind_fsRemove_self fs q)
      · exact ih hq _

theorem mem_removeAllPaths {ps : List FsPath} {fs : FS} {e : FsPath × FileInfo} :
    e ∈ removeAllPaths fs ps ↔ e ∈ fs ∧ e.1 ∉ ps := by
  induction ps generalizing fs with
  | nil => simp [removeAllPaths]
  | cons p rest ih =>
      show e ∈ removeAllPaths (fsRemove fs p) rest ↔ _
      rw [ih, mem_fsRemove]
      simp only [List.mem_cons]
      constructor
      · rintro ⟨⟨he, hne⟩, hnr⟩
        exact ⟨he, fun hmem => by rcases hmem with h | h; exact hne h; exact hnr h⟩
      · rintro ⟨he, hni⟩
        exact ⟨⟨he, fun h => hni (Or.inl h)⟩, fun h => hni (Or.inr h)⟩

/-! ### Prefix, name and extension lemmas -/

theorem isPre_iff {α : Type} [DecidableEq α] {u v : List α} :
    isPre u v = true ↔ ∃ t, v = u ++ t := by
  induction u generalizing v with
  | nil => simp [isPre]
  | cons a as ih =>
      cases v with
      | nil =>
          simp only [isPre]
          constructor
          · intro h; cases h
          · rintro ⟨t, ht⟩; cases ht
      | cons b bs =>
          simp only [isPre, Bool.and_eq_true, decide_eq_true_eq, ih]
          constructor
          · rintro ⟨hab, t, ht⟩
            exact ⟨t, by rw [hab, ht]; rfl⟩
          · rintro ⟨t, ht⟩
            injection ht with h1 h2
            exact ⟨h1.symm, t, h2⟩

theorem isPre_append {α : Type} [DecidableEq α] (u t : List α) :
    isPre u (u ++ t) = true :=
  isPre_iff.mpr ⟨t, rfl⟩

theorem append_drop_of_isPre {α : Type} [DecidableEq α] {u v : List α}
    (h : isPre u v = true) : u ++ v.drop u.length = v := by
  rcases isPre_iff.mp h with ⟨t, ht⟩
  subst ht
  rw [List.drop_left]

theorem head_of_isPre {α : Type} [DecidableEq α] {a : α} {as v : List α}
    (h : isPre (a :: as) v = true) : ∃ bs, v = a :: bs := by
  rcases isPre_iff.mp h with ⟨t, ht⟩
  exact ⟨as ++ t, ht⟩

theorem takeWhile_append_stop {α : Type} {p : α → Bool} {u : List α}
    (h1 : ∀ c ∈ u, p c = true) {a : α} (h2 : p a = false) (v : List α) :
    (u ++ a :: v).takeWhile p = u := by
  induction u with
  | nil => simp [List.takeWhile_cons, h2]
  | cons c cs ih =>
      have hc : p c = true := h1 c (List.mem_cons_self c cs)
      have hrest : ∀ x ∈ cs, p x = true := fun x hx => h1 x (List.mem_cons_of_mem c hx)
      simp [List.takeWhile_cons, hc, ih hrest]

theorem pySuffixChars_append {x s : List Char} (hx : x ≠ []) (hs : s ≠ [])
    (hnd : ∀ c ∈ s, c ≠ '.') :
    pySuffixChars (x ++ '.' :: s) = '.' :: s := by
  have hrev : (x ++ '.' :: s).reverse = s.reverse ++ '.' :: x.reverse := by
    simp [List.reverse_append]
  have hall : ∀ c ∈ s.reverse, (c != '.') = true := by
    intro c hc
    simpa using hnd c (List.mem_reverse.mp hc)
  have hdot : (('.' : Char) != '.') = false := by decide
  have htw : ((x ++ '.' :: s).reverse.takeWhile (fun c => c != '.')) = s.reverse := by
    rw [hrev]; exact takeWhile_append_stop hall hdot x.reverse
  have hk : ((x ++ '.' :: s).reverse.takeWhile (fun c => c != '.')).length = s.length := by
    rw [htw, List.length_reverse]
  have hlen : (x ++ '.' :: s).length = x.length + 1 + s.length := by
    simp [List.length_append, List.length_cons]
    omega
  have hx0 : 0 < x.length := List.length_pos.mpr hx
  have hs0 : 0 < s.length := List.length_pos.mpr hs
  unfold pySuffixChars
  rw [hk, hlen]
  have hc1 : ¬ (s.length = x.length + 1 + s.length ∨ s.length = 0 ∨
      s.length = x.length + 1 + s.length - 1) := by
    push_neg
    refine ⟨by omega, by omega, by omega⟩
  rw [if_neg hc1]
  congr 1
  rw [hrev]
  rw [List.take_left' (by rw [List.length_reverse]), List.reverse_reverse]

theorem baseName_concat (p : FsPath) (a : String) : baseName (p ++ [a]) = a := by
  simp [baseName]

theorem parentDir_concat (p : FsPath) (a : String) : parentDir (p ++ [a]) = p := by
  simp [parentDir]

theorem string_data_ne_nil {s : String} (h : s.data ≠ []) (t : String) :
    (s ++ t).data ≠ [] := by
  rw [String.data_append]
  intro hc
  exact h (List.append_eq_nil.mp hc).1

theorem pathSuffix_db_backup (d : FsPath) (ts : String) :
    pathSuffix (d ++ ["db_backup_" ++ ts ++ ".db"]) = ".db" := by
  rw [pathSuffix, baseName_concat]
  have hdata : ("db_backup_" ++ ts ++ ".db").data
      = ("db_backup_" ++ ts).data ++ '.' :: ['d', 'b'] := by
    rw [String.data_append]
  rw [hdata, pySuffixChars_append (string_data_ne_nil (by decide) ts) (by decide)
    (by decide)]

theorem pathSuffix_full_backup (d : FsPath) (nm : Option String) (ts : String) :
    pathSuffix (d ++ [fullBackupFilename nm ts]) = ".zip" := by
  rw [pathSuffix, baseName_concat]
  cases nm with
  | none =>
      have hdata : (fullBackupFilename none ts).data
          = ("backup" ++ "_" ++ ts).data ++ '.' :: ['z', 'i', 'p'] := by
        show ((("backup" ++ "_" ++ ts) ++ ".zip")).data = _
        rw [String.data_append]
      have hne : ("backup" ++ "_" ++ ts).data ≠ [] :=
        string_data_ne_nil (by decide) ts
      rw [hdata, pySuffixChars_append hne (by decide) (by decide)]
  | some n =>
      have hdata : (fullBackupFilename (some n) ts).data
          = (n ++ "_" ++ ts).data ++ '.' :: ['z', 'i', 'p'] := by
        show (((n ++ "_" ++ ts) ++ ".zip")).data = _
        rw [String.data_append]
      have hne : (n ++ "_" ++ ts).data ≠ [] := by
        apply string_data_ne_nil
        rw [String.data_append]
        intro hc
        exact absurd (List.append_eq_nil.mp hc).2 (by decide)
      rw [hdata, pySuffixChars_append hne (by decide) (by decide)]

/-! ### Stable descending sort lemmas -/

theorem insertDescRec_perm (r : BackupRecord) (l : List BackupRecord) :
    List.Perm (insertDescRec r l) (r :: l) := by
  induction l with
  | nil => simp [insertDescRec]
  | cons b rest ih =>
      by_cases h : b.created < r.created
      · simp [insertDescRec, h]
      · simp only [insertDescRec, if_neg h]
        exact (ih.cons b).trans (List.Perm.swap r b rest)

theorem mem_insertDescRec {x r : BackupRecord} {l : List BackupRecord} :
    x ∈ insertDescRec r l ↔ x = r ∨ x ∈ l := by
  rw [(insertDescRec_perm r l).mem_iff]
  simp

theorem insertDescRec_pairwise {l : List BackupRecord}
    (h : l.Pairwise (fun a b => b.created ≤ a.created)) (r : BackupRecord) :
    (insertDescRec r l).Pairwise (fun a b => b.created ≤ a.created) := by
  induction l with
  | nil => simp [insertDescRec]
  | cons b rest ih =>
      rcases List.pairwise_cons.mp h with ⟨hb, hrest⟩
      by_cases hlt : b.created < r.created
      · simp only [insertDescRec, if_pos hlt]
        refine List.Pairwise.cons ?_ h
        intro y hy
        rcases List.mem_cons.mp hy with hy | hy
        · subst hy; omega
        · have := hb y hy; omega
      · simp only [insertDescRec, if_neg hlt]
        refine List.Pairwise.cons ?_ (ih hrest)
        intro y hy
        rcases mem_insertDescRec.mp hy with hy | hy
        · subst hy; omega
        · exact hb y hy

theorem sortFold_perm (l acc : List BackupRecord) :
    List.Perm (l.foldl (fun acc r => insertDescRec r acc) acc) (acc ++ l) := by
  induction l generalizing acc with
  | nil => simp
  | cons r rest ih =>
      exact ((ih _).trans
        ((insertDescRec_perm r acc).append_right rest)).trans List.perm_middle.symm

theorem sortByCreatedDesc_perm (l : List BackupRecord) :
    List.Perm (sortByCreatedDesc l) l := by
  simpa using sortFold_perm l []

theorem sortFold_pairwise (l : List BackupRecord) :
    ∀ acc : List BackupRecord, acc.Pairwise (fun a b => b.created ≤ a.created) →
    (l.foldl (fun acc r => insertDescRec r acc) acc).Pairwise
      (fun a b => b.created ≤ a.created) := by
  induction l with
  | nil => intro acc h; exact h
  | cons r rest ih =>
      intro acc h
      exact ih _ (insertDescRec_pairwise h r)

theorem sortByCreatedDesc_pairwise (l : List BackupRecord) :
    (sortByCreatedDesc l).Pairwise (fun a b => b.created ≤ a.created) :=
  sortFold_pairwise l [] (by simp)

theorem pairwise_lt_of_nodup_created {l : List BackupRecord}
    (h1 : l.Pairwise (fun a b => b.created ≤ a.created))
    (h2 : (l.map (fun r => r.created)).Nodup) :
    l.Pairwise (fun a b => b.created < a.created) := by
  induction l with
  | nil => simp
  | cons a rest ih =>
      rcases List.pairwise_cons.mp h1 with ⟨ha, hrest⟩
      rw [List.map_cons, List.nodup_cons] at h2
      rcases h2 with ⟨hna, hnrest⟩
      refine List.Pairwise.cons ?_ (ih hrest hnrest)
      intro y hy
      have hle := ha y hy
      have hne : y.created ≠ a.created := fun he =>
        hna (List.mem_map.mpr ⟨y, hy, he⟩)
      omega

/-! ### Listing lemmas -/

theorem mkBackupRecord_some {sf : FsPath → Bool} {e : FsPath × FileInfo}
    {r : BackupRecord} (h : mkBackupRecord sf e = some r) :
    r.path = e.1 ∧ sf e.1 = false := by
  cases hsf : sf e.1 with
  | true => simp [mkBackupRecord, hsf] at h
  | false =>
      simp only [mkBackupRecord, hsf, Bool.false_eq_true, if_false, Option.some_inj] at h
      exact ⟨by rw [← h], rfl⟩

theorem filterMap_records_path_sublist (sf : FsPath → Bool) (l : FS) :
    ((l.filterMap (mkBackupRecord sf)).map (fun r => r.path)).Sublist
      (l.map (fun e => e.1)) := by
  induction l with
  | nil => simp
  | cons e rest ih =>
      cases hm : mkBackupRecord sf e with
      | none =>
          simp only [List.filterMap_cons, hm, List.map_cons]
          exact ih.cons _
      | some r =>
          simp only [List.filterMap_cons, hm, List.map_cons]
          rw [(mkBackupRecord_some hm).1]
          exact ih.cons₂ _

theorem endsWith_head {sfx cs : List Char} {a : Char} {rest : List Char}
    (hs : sfx.reverse = a :: rest) (h : endsWithChars sfx cs = true) :
    ∃ t, cs.reverse = a :: t := by
  rw [endsWithChars, hs] at h
  exact head_of_isPre h

theorem not_both_ext {cs : List Char}
    (h1 : endsWithChars ".zip".data cs = true)
    (h2 : endsWithChars ".db".data cs = true) : False := by
  rcases endsWith_head (by decide : (".zip".data).reverse = 'p' :: ['i', 'z', '.']) h1
    with ⟨t1, ht1⟩
  rcases endsWith_head (by decide : (".db".data).reverse = 'b' :: ['d', '.']) h2
    with ⟨t2, ht2⟩
  rw [ht1] at ht2
  injection ht2 with hc _
  exact absurd hc (by decide)

theorem globMatches_keys_nodup {m : BackupManager} {fs : FS}
    (h : (fs.map (fun e => e.1)).Nodup) :
    ((globMatches m fs).map (fun e => e.1)).Nodup := by
  rw [globMatches, List.map_append, List.nodup_append]
  refine ⟨((List.filter_sublist _).map _).nodup h,
    ((List.filter_sublist _).map _).nodup h, ?_⟩
  intro k hk1 hk2
  rcases List.mem_map.mp hk1 with ⟨e1, he1, hk1e⟩
  rcases List.mem_map.mp hk2 with ⟨e2, he2, hk2e⟩
  rcases List.mem_filter.mp he1 with ⟨he1m, hc1⟩
  rcases List.mem_filter.mp he2 with ⟨he2m, hc2⟩
  have he12 : e1 = e2 :=
    List.inj_on_of_nodup_map h he1m he2m (hk1e.trans hk2e.symm)
  subst he12
  simp only [Bool.and_eq_true] at hc1 hc2
  exact not_both_ext hc1.2 hc2.2

theorem listing_paths_nodup {m : BackupManager} {sf : FsPath → Bool} {fs : FS}
    (h : (fs.map (fun e => e.1)).Nodup) :
    ((list_backups m sf fs).map (fun r => r.path)).Nodup := by
  have hperm :
      List.Perm ((list_backups m sf fs).map (fun r => r.path))
        (((globMatches m fs).filterMap (mkBackupRecord sf)).map (fun r => r.path)) :=
    (sortByCreatedDesc_perm _).map _
  rw [hperm.nodup_iff]
  exact (filterMap_records_path_sublist sf _).nodup (globMatches_keys_nodup h)

theorem mem_listing_exists_entry {m : BackupManager} {sf : FsPath → Bool} {fs : FS}
    {r : BackupRecord} (h : r ∈ list_backups m sf fs) :
    ∃ e ∈ globMatches m fs, mkBackupRecord sf e = some r := by
  have := ((sortByCreatedDesc_perm _).mem_iff).mp h
  exact List.mem_filterMap.mp this

theorem mem_globMatches_mem_fs {m : BackupManager} {fs : FS}
    {e : FsPath × FileInfo} (h : e ∈ globMatches m fs) : e ∈ fs := by
  rcases List.mem_append.mp h with h | h
  · exact (List.mem_filter.mp h).1
  · exact (List.mem_filter.mp h).1

/-! ### Cleanup fold lemma -/

theorem cleanup_fold_spec (uf : FsPath → Bool) (l : List BackupRecord) :
    ∀ (fs : FS) (c : Nat),
    l.foldl (fun (a : FS × Nat) b => if uf b.path then a else (fsRemove a.1 b.path, a.2 + 1))
        (fs, c)
      = (removeAllPaths fs ((l.filter (fun b => !uf b.path)).map (fun b => b.path)),
         c + (l.filter (fun b => !uf b.path)).length) := by
  induction l with
  | nil => intro fs c; simp [removeAllPaths]
  | cons b rest ih =>
      intro fs c
      by_cases h : uf b.path
      · simp only [List.foldl_cons, if_pos h, List.filter_cons,
          show (!uf b.path) = false by simp [h], if_false]
        exact ih fs c
      · simp only [List.foldl_cons, if_neg h, List.filter_cons,
          show (!uf b.path) = true by simp [h], if_true, List.map_cons, List.length_cons]
        rw [ih (fsRemove fs b.path) (c + 1)]
        rw [show removeAllPaths fs (b.path :: (rest.filter (fun b => !uf b.path)).map
          (fun b => b.path)) = removeAllPaths (fsRemove fs b.path)
          ((rest.filter (fun b => !uf b.path)).map (fun b => b.path)) from rfl]
        rw [Prod.mk.injEq]
        exact ⟨rfl, by omega⟩

/-! ### Claim theorems -/

theorem fsExists_false_iff {fs : FS} {p : FsPath} :
    fsExists fs p = false ↔ fsFind fs p = none := by
  rw [fsExists]
  cases fsFind fs p <;> simp

/-- Claim C7: `restore_backup` returns a structured failure with
`BackupNotFound` semantics ("Backup file not found") when the path does
not exist, and with `UnsupportedFormat` semantics ("Invalid backup file
format") when the path exists but its extension is neither `.db` nor
`.zip`; in both cases the state is unchanged and the result is an
ordinary `(state, success, message)` value (the model is total by
construction, mirroring the `try/except` boundary of lines 150-167). -/
theorem C7_restore_failure_modes (m : BackupManager) (cf : FsPath → FsPath → Bool)
    (now : Nat) (fs : FS) (bp : FsPath) (rd rc : Bool) :
    (fsExists fs bp = false →
      restore_backup m cf now fs bp rd rc = (fs, false, "Backup file not found")) ∧
    (fsExists fs bp = true → pathSuffix bp ≠ ".db" → pathSuffix bp ≠ ".zip" →
      restore_backup m cf now fs bp rd rc = (fs, false, "Invalid backup file format")) := by
  constructor
  · intro h
    simp [restore_backup, h]
  · intro h h1 h2
    simp [restore_backup, h, h1, h2]

/-- Witness for C7: a missing path gives "Backup file not found", and an
existing `.txt` file gives "Invalid backup file format". -/
theorem C7_restore_failure_modes_witness :
    restore_backup ⟨["bk"], ["data", "app.db"], ["documents"], ["cwd"]⟩
      (fun _ _ => false) 0 [] ["bk", "missing.zip"] true false
      = ([], false, "Backup file not found") ∧
    restore_backup ⟨["bk"], ["data", "app.db"], ["documents"], ["cwd"]⟩
      (fun _ _ => false) 0 [(["bk", "notes.txt"], ⟨FileData.bytes [1], 3⟩)]
      ["bk", "notes.txt"] true false
      = ([(["bk", "notes.txt"], ⟨FileData.bytes [1], 3⟩)], false,
         "Invalid backup file format") :=
  ⟨(C7_restore_failure_modes _ _ _ _ _ _ _).1 (by decide),
   (C7_restore_failure_modes _ _ _ _ _ _ _).2 (by decide) (by decide) (by decide)⟩

/-- Claim C9: `delete_backup` accepts any path whatsoever — its body
reads nothing from the manager's configuration, so any existing file
(inside or outside `backup_root`, artifact extension or not) is unlinked
and the call reports success. -/
theorem C9_delete_backup_unrestricted (uf : FsPath → Bool) (fs : FS) (p : FsPath)
    (hex : fsExists fs p = true) (huf : uf p = false) :
    delete_backup uf fs p = (fsRemove fs p, true, "Backup deleted: " ++ baseName p) ∧
    fsExists (delete_backup uf fs p).1 p = false := by
  have h1 : delete_backup uf fs p
      = (fsRemove fs p, true, "Backup deleted: " ++ baseName p) := by
    simp [delete_backup, hex, huf]
  refine ⟨h1, ?_⟩
  rw [h1]
  simp [fsExists, fsFind_fsRemove_self]

/-- Witness for C9: deleting a file outside any backup root, with a
non-artifact extension, succeeds and removes it. -/
theorem C9_delete_backup_unrestricted_witness :
    fsExists [(["etc", "passwd.txt"], ⟨FileData.bytes [1], 5⟩)] ["etc", "passwd.txt"]
      = true ∧
    fsExists (delete_backup (fun _ => false)
      [(["etc", "passwd.txt"], ⟨FileData.bytes [1], 5⟩)] ["etc", "passwd.txt"]).1
      ["etc", "passwd.txt"] = false :=
  ⟨by decide,
   (C9_delete_backup_unrestricted (fun _ => false) _ _ (by decide) rfl).2⟩

/-- Claim C8: the statistics are the advertised projections of the
listing — `total_backups` is its length, `total_size_bytes` the sum of
the listed sizes, newest/oldest the first/last entries of the
newest-first list, and the zero-backup case is an explicit empty-state
record, not an error. -/
theorem C8_statistics_consistency (m : BackupManager) (sf : FsPath → Bool) (fs : FS) :
    (get_backup_statistics m sf fs).total_backups = (list_backups m sf fs).length ∧
    (get_backup_statistics m sf fs).total_size_bytes
      = ((list_backups m sf fs).map (fun r => r.size_bytes)).sum ∧
    (get_backup_statistics m sf fs).newest_backup
      = (list_backups m sf fs).head?.map (fun r => r.created) ∧
    (get_backup_statistics m sf fs).oldest_backup
      = (list_backups m sf fs).getLast?.map (fun r => r.created) ∧
    (list_backups m sf fs = [] →
      get_backup_statistics m sf fs = ⟨0, "0 B", 0, none, none⟩) := by
  cases h : list_backups m sf fs with
  | nil =>
      simp only [get_backup_statistics, h]
      simp
  | cons b bs =>
      simp only [get_backup_statistics, h]
      refine ⟨by simp, by simp, by simp, ?_, ?_⟩
      · rw [List.getLast?_eq_getLast (b :: bs) (by simp)]
        simp
      · intro hc
        exact absurd hc (List.cons_ne_nil b bs)

/-- Claim C1 counterexample: calling `create_backup` when the live
database file does not exist returns the `DatabaseMissing` failure, but
an empty archive file HAS been created under `backup_root` and is left
on disk — contradicting "creates no new artifact under backup_root". -/
theorem C1_counterexample :
    (create_backup ⟨["bk"], ["data", "app.db"], ["documents"], ["cwd"]⟩
      [] "ts" 7 true false none).2.1 = false ∧
    (create_backup ⟨["bk"], ["data", "app.db"], ["documents"], ["cwd"]⟩
      [] "ts" 7 true false none).2.2.2 = "Database file not found" ∧
    fsFind (create_backup ⟨["bk"], ["data", "app.db"], ["documents"], ["cwd"]⟩
      [] "ts" 7 true false none).1 ["bk", "backup_ts.zip"]
      = some ⟨FileData.zip [], 7⟩ :=
  ⟨by decide, by decide, by decide⟩

/-- Claim C1 (amended): when the live database file is missing, both
operations return failure with the `DatabaseMissing` message and
`create_database_only_backup` creates no artifact; but `create_backup`
creates (and leaves behind) an empty archive file at the target path,
because the zip file is opened before the database-existence check. -/
theorem C1_missing_database_behavior (m : BackupManager) (fs : FS) (ts : String)
    (now : Nat) (incD incC : Bool) (nm : Option String)
    (hdb : fsExists fs m.database_path = false)
    (hne : m.database_path ≠ m.backup_root ++ [fullBackupFilename nm ts]) :
    create_backup m fs ts now incD incC nm
      = (fsWrite fs (m.backup_root ++ [fullBackupFilename nm ts]) ⟨FileData.zip [], now⟩,
         false, none, "Database file not found") ∧
    fsExists (create_backup m fs ts now incD incC nm).1
      (m.backup_root ++ [fullBackupFilename nm ts]) = true ∧
    create_database_only_backup m fs ts = (fs, false, none, "Database file not found") := by
  have hfind : fsFind fs m.database_path = none := fsExists_false_iff.mp hdb
  have h1 : fsFind (fsWrite fs (m.backup_root ++ [fullBackupFilename nm ts])
      ⟨FileData.zip [], now⟩) m.database_path = none := by
    rw [fsFind_fsWrite_ne fs _ hne]
    exact hfind
  have hc : create_backup m fs ts now incD incC nm
      = (fsWrite fs (m.backup_root ++ [fullBackupFilename nm ts]) ⟨FileData.zip [], now⟩,
         false, none, "Database file not found") := by
    simp only [create_backup, h1]
  refine ⟨hc, ?_, ?_⟩
  · rw [hc]
    exact fsExists_fsWrite_self _ _ _
  · simp only [create_database_only_backup, hfind]

/-- Witness for C1: a concrete manager with no database file. -/
theorem C1_missing_database_behavior_witness :
    fsExists ([] : FS) ["data", "app.db"] = false ∧
    fsExists (create_backup ⟨["bk"], ["data", "app.db"], ["documents"], ["cwd"]⟩
      [] "20240101" 7 true false none).1 ["bk", "backup_20240101.zip"] = true :=
  ⟨by decide,
   (C1_missing_database_behavior ⟨["bk"], ["data", "app.db"], ["documents"], ["cwd"]⟩
     [] "20240101" 7 true false none (by decide) (by decide)).2.1⟩

/-- Claim C4 (amended): the listing is the stat-skip scan of the two
glob patterns (a permutation of building one record per matched,
non-failing file), it is ordered by the records' `created` field
descending, and the order is strictly descending whenever the matched
artifacts' `created` values (their mtimes) are pairwise distinct. -/
theorem C4_listing_order (m : BackupManager) (sf : FsPath → Bool) (fs : FS) :
    (list_backups m sf fs).Pairwise (fun a b => b.created ≤ a.created) ∧
    List.Perm (list_backups m sf fs)
      ((globMatches m fs).filterMap (mkBackupRecord sf)) ∧
    (((list_backups m sf fs).map (fun r => r.created)).Nodup →
      (list_backups m sf fs).Pairwise (fun a b => b.created < a.created)) :=
  ⟨sortByCreatedDesc_pairwise _, sortByCreatedDesc_perm _,
   fun h => pairwise_lt_of_nodup_created (sortByCreatedDesc_pairwise _) h⟩

/-- Witness for C4: on two artifacts with distinct mtimes, the listing
is strictly descending. -/
theorem C4_listing_order_witness :
    (((list_backups ⟨["bk"], ["data", "app.db"], ["documents"], ["cwd"]⟩ (fun _ => false)
        [(["bk", "a.db"], ⟨FileData.bytes [1], 10⟩),
         (["bk", "b.db"], ⟨FileData.bytes [2], 20⟩)]).map (fun r => r.created)).Nodup) ∧
    (list_backups ⟨["bk"], ["data", "app.db"], ["documents"], ["cwd"]⟩ (fun _ => false)
        [(["bk", "a.db"], ⟨FileData.bytes [1], 10⟩),
         (["bk", "b.db"], ⟨FileData.bytes [2], 20⟩)]).Pairwise
      (fun a b => b.created < a.created) :=
  ⟨by decide,
   (C4_listing_order ⟨["bk"], ["data", "app.db"], ["documents"], ["cwd"]⟩ (fun _ => false)
     [(["bk", "a.db"], ⟨FileData.bytes [1], 10⟩),
      (["bk", "b.db"], ⟨FileData.bytes [2], 20⟩)]).2.2 (by decide)⟩

/-- Claim C4 counterexample: two `create_database_only_backup` calls at
strictly increasing wall-clock times (the `ts` filename stamps "t1",
"t2") over an unmodified database produce artifacts whose `created`
fields are BOTH the database's mtime 100 (`shutil.copy2` preserves the
source mtime), so the listing is not strictly descending by creation
time. -/
theorem C4_counterexample :
    ((list_backups ⟨["bk"], ["data", "app.db"], ["documents"], ["cwd"]⟩ (fun _ => false)
        (create_database_only_backup ⟨["bk"], ["data", "app.db"], ["documents"], ["cwd"]⟩
          (create_database_only_backup ⟨["bk"], ["data", "app.db"], ["documents"], ["cwd"]⟩
            [(["data", "app.db"], ⟨FileData.bytes [1], 100⟩)] "t1").1 "t2").1).map
      (fun r => r.created) = [100, 100]) ∧
    ¬ (((list_backups ⟨["bk"], ["data", "app.db"], ["documents"], ["cwd"]⟩ (fun _ => false)
        (create_database_only_backup ⟨["bk"], ["data", "app.db"], ["documents"], ["cwd"]⟩
          (create_database_only_backup ⟨["bk"], ["data", "app.db"], ["documents"], ["cwd"]⟩
            [(["data", "app.db"], ⟨FileData.bytes [1], 100⟩)] "t1").1 "t2").1).map
      (fun r => r.created)).Pairwise (fun a b => b < a)) := by
  have hA : (list_backups ⟨["bk"], ["data", "app.db"], ["documents"], ["cwd"]⟩
      (fun _ => false)
      (create_database_only_backup ⟨["bk"], ["data", "app.db"], ["documents"], ["cwd"]⟩
        (create_database_only_backup ⟨["bk"], ["data", "app.db"], ["documents"], ["cwd"]⟩
          [(["data", "app.db"], ⟨FileData.bytes [1], 100⟩)] "t1").1 "t2").1).map
      (fun r => r.created) = [100, 100] := by decide
  refine ⟨hA, fun h => ?_⟩
  rw [hA] at h
  have h3 := List.rel_of_pairwise_cons h (List.mem_singleton.mpr rfl)
  omega

/-- Claim C5 (amended): for positive `N`, when at most `N` backups are
listed the cleanup is a success returning zero deletions; when more are
listed it unlinks exactly the records beyond the `N` first of the
newest-first listing (skipping, not aborting on, per-artifact unlink
failures), returns the number actually deleted, every deleted record's
`created` is no newer than (less than or equal to, not strictly older
than) every kept record's, kept artifacts survive, and successfully
deleted ones are gone. -/
theorem C5_cleanup_behavior (m : BackupManager) (sf : FsPath → Bool)
    (uf : FsPath → Bool) (fs : FS) (N : Nat) (_hN : 0 < N) :
    ((list_backups m sf fs).length ≤ N →
      cleanup_old_backups m sf uf fs N
        = (fs, true, 0, "No cleanup needed. Only "
            ++ toString (list_backups m sf fs).length ++ " backup(s) exist.")) ∧
    (N < (list_backups m sf fs).length →
      (cleanup_old_backups m sf uf fs N).2.1 = true ∧
      (cleanup_old_backups m sf uf fs N).2.2.1
        = (((list_backups m sf fs).drop N).filter (fun b => !uf b.path)).length ∧
      (∀ d ∈ (list_backups m sf fs).drop N, ∀ k ∈ (list_backups m sf fs).take N,
        d.created ≤ k.created) ∧
      (∀ d ∈ (list_backups m sf fs).drop N, uf d.path = false →
        fsExists (cleanup_old_backups m sf uf fs N).1 d.path = false) ∧
      ((fs.map (fun e => e.1)).Nodup →
        ∀ k ∈ (list_backups m sf fs).take N,
          fsExists (cleanup_old_backups m sf uf fs N).1 k.path = true)) := by
  constructor
  · intro h
    simp [cleanup_old_backups, h]
  · intro h
    have hle : ¬ ((list_backups m sf fs).length ≤ N) := by omega
    have hres : cleanup_old_backups m sf uf fs N
        = (removeAllPaths fs
            ((((list_backups m sf fs).drop N).filter (fun b => !uf b.path)).map
              (fun b => b.path)),
           true,
           (((list_backups m sf fs).drop N).filter (fun b => !uf b.path)).length,
           "Deleted " ++ toString
              ((((list_backups m sf fs).drop N).filter (fun b => !uf b.path)).length)
            ++ " old backup(s). Kept " ++ toString N ++ " most recent.") := by
      simp only [cleanup_old_backups, if_neg hle, cleanup_fold_spec]
      simp
    refine ⟨by rw [hres], by rw [hres], ?_, ?_, ?_⟩
    · intro d hd k hk
      have hsort := sortByCreatedDesc_pairwise
        ((globMatches m fs).filterMap (mkBackupRecord sf))
      have hsplit : (list_backups m sf fs).take N ++ (list_backups m sf fs).drop N
          = list_backups m sf fs := List.take_append_drop N _
      have hp : ((list_backups m sf fs).take N ++ (list_backups m sf fs).drop N).Pairwise
          (fun a b => b.created ≤ a.created) := by
        rw [hsplit]; exact hsort
      exact (List.pairwise_append.mp hp).2.2 k hk d hd
    · intro d hd hduf
      rw [hres]
      have hmem : d.path ∈ ((((list_backups m sf fs).drop N).filter
          (fun b => !uf b.path)).map (fun b => b.path)) :=
        List.mem_map.mpr ⟨d, List.mem_filter.mpr ⟨hd, by simp [hduf]⟩, rfl⟩
      simp [fsExists, fsFind_removeAllPaths_of_mem hmem]
    · intro hnd k hk
      rw [hres]
      have hpnd : ((list_backups m sf fs).map (fun r => r.path)).Nodup :=
        listing_paths_nodup hnd
      have h2 : (((list_backups m sf fs).take N).map (fun r => r.path)
          ++ ((list_backups m sf fs).drop N).map (fun r => r.path)).Nodup := by
        rw [← List.map_append, List.take_append_drop]
        exact hpnd
      rcases List.nodup_append.mp h2 with ⟨_, _, hdisj⟩
      have hkmem : k.path ∈ ((list_backups m sf fs).take N).map (fun r => r.path) :=
        List.mem_map.mpr ⟨k, hk, rfl⟩
      have hnot : k.path ∉ ((((list_backups m sf fs).drop N).filter
          (fun b => !uf b.path)).map (fun b => b.path)) := by
        intro hmem
        rcases List.mem_map.mp hmem with ⟨d, hdmem, hdp⟩
        exact hdisj hkmem
          (List.mem_map.mpr ⟨d, (List.mem_filter.mp hdmem).1, hdp⟩)
      rw [fsExists, fsFind_removeAllPaths_of_not_mem hnot]
      rcases mem_listing_exists_entry (List.mem_of_mem_take hk) with ⟨e, he, hmk⟩
      rw [(mkBackupRecord_some hmk).1]
      exact fsExists_of_mem (mem_globMatches_mem_fs he)

/-- Witness for C5: with three artifacts and `N = 1`, cleanup keeps the
newest and deletes the two older ones. -/
theorem C5_cleanup_behavior_witness :
    (1 < (list_backups ⟨["bk"], ["data", "app.db"], ["documents"], ["cwd"]⟩
        (fun _ => false)
        [(["bk", "a.db"], ⟨FileData.bytes [1], 10⟩),
         (["bk", "b.db"], ⟨FileData.bytes [2], 30⟩),
         (["bk", "c.db"], ⟨FileData.bytes [3], 20⟩)]).length) ∧
    (cleanup_old_backups ⟨["bk"], ["data", "app.db"], ["documents"], ["cwd"]⟩
        (fun _ => false) (fun _ => false)
        [(["bk", "a.db"], ⟨FileData.bytes [1], 10⟩),
         (["bk", "b.db"], ⟨FileData.bytes [2], 30⟩),
         (["bk", "c.db"], ⟨FileData.bytes [3], 20⟩)] 1).2.2.1 = 2 :=
  ⟨by decide, by
    have h := ((C5_cleanup_behavior ⟨["bk"], ["data", "app.db"], ["documents"], ["cwd"]⟩
      (fun _ => false) (fun _ => false)
      [(["bk", "a.db"], ⟨FileData.bytes [1], 10⟩),
       (["bk", "b.db"], ⟨FileData.bytes [2], 30⟩),
       (["bk", "c.db"], ⟨FileData.bytes [3], 20⟩)] 1 (by decide)).2 (by decide)).2.1
    rw [h]
    decide⟩

/-- Claim C5 counterexample: two artifacts with equal mtimes (as the
code itself produces via `shutil.copy2`); with `keepCount = 1` the
deleted artifact's `created` equals the kept one's, so the deleted
artifact is NOT older than the kept one. -/
theorem C5_counterexample :
    ((list_backups ⟨["bk"], ["data", "app.db"], ["documents"], ["cwd"]⟩ (fun _ => false)
        [(["bk", "a.db"], ⟨FileData.bytes [1], 100⟩),
         (["bk", "b.db"], ⟨FileData.bytes [2, 2], 100⟩)]).map
      (fun r => (r.path, r.created))
      = [(["bk", "a.db"], 100), (["bk", "b.db"], 100)]) ∧
    (cleanup_old_backups ⟨["bk"], ["data", "app.db"], ["documents"], ["cwd"]⟩
        (fun _ => false) (fun _ => false)
        [(["bk", "a.db"], ⟨FileData.bytes [1], 100⟩),
         (["bk", "b.db"], ⟨FileData.bytes [2, 2], 100⟩)] 1).2.2.1 = 1 ∧
    fsExists (cleanup_old_backups ⟨["bk"], ["data", "app.db"], ["documents"], ["cwd"]⟩
        (fun _ => false) (fun _ => false)
        [(["bk", "a.db"], ⟨FileData.bytes [1], 100⟩),
         (["bk", "b.db"], ⟨FileData.bytes [2, 2], 100⟩)] 1).1 ["bk", "a.db"] = true ∧
    fsExists (cleanup_old_backups ⟨["bk"], ["data", "app.db"], ["documents"], ["cwd"]⟩
        (fun _ => false) (fun _ => false)
        [(["bk", "a.db"], ⟨FileData.bytes [1], 100⟩),
         (["bk", "b.db"], ⟨FileData.bytes [2, 2], 100⟩)] 1).1 ["bk", "b.db"] = false :=
  ⟨by decide, by decide, by decide, by decide⟩

/-- Claim C10: `cleanup_old_backups` with `keep_count = 0` (outside the
spec's positive precondition) and a non-empty listing deletes every
listed artifact, returns success with the full count, and a re-listing
afterwards is empty. -/
theorem cleanup_fold_nofail (l : List BackupRecord) :
    ∀ (fs : FS) (c : Nat),
    l.foldl (fun (a : FS × Nat) b => (fsRemove a.1 b.path, a.2 + 1)) (fs, c)
      = (removeAllPaths fs (l.map (fun b => b.path)), c + l.length) := by
  induction l with
  | nil => intro fs c; simp [removeAllPaths]
  | cons b rest ih =>
      intro fs c
      simp only [List.foldl_cons, List.map_cons, List.length_cons]
      rw [ih (fsRemove fs b.path) (c + 1)]
      rw [show removeAllPaths fs (b.path :: rest.map (fun b => b.path))
        = removeAllPaths (fsRemove fs b.path) (rest.map (fun b => b.path)) from rfl]
      rw [Prod.mk.injEq]
      exact ⟨rfl, by omega⟩

theorem C10_cleanup_keep_zero (m : BackupManager) (sf : FsPath → Bool) (fs : FS)
    (h : list_backups m sf fs ≠ []) :
    (cleanup_old_backups m sf (fun _ => false) fs 0).2.1 = true ∧
    (cleanup_old_backups m sf (fun _ => false) fs 0).2.2.1
      = (list_backups m sf fs).length ∧
    list_backups m sf (cleanup_old_backups m sf (fun _ => false) fs 0).1 = [] := by
  have hpos : 0 < (list_backups m sf fs).length := List.length_pos.mpr h
  have hlen : ¬ ((list_backups m sf fs).length ≤ 0) := by omega
  have hres : cleanup_old_backups m sf (fun _ => false) fs 0
      = (removeAllPaths fs ((list_backups m sf fs).map (fun b => b.path)),
         true,
         (list_backups m sf fs).length,
         "Deleted " ++ toString (list_backups m sf fs).length
           ++ " old backup(s). Kept " ++ toString 0 ++ " most recent.") := by
    simp only [cleanup_old_backups, if_neg hlen, List.drop_zero,
      Bool.false_eq_true, if_false]
    rw [cleanup_fold_nofail]
    simp
  refine ⟨by rw [hres], by rw [hres], ?_⟩
  rw [hres]
  show list_backups m sf
    (removeAllPaths fs ((list_backups m sf fs).map (fun b => b.path))) = []
  have hnil : (globMatches m (removeAllPaths fs
      ((list_backups m sf fs).map (fun b => b.path)))).filterMap (mkBackupRecord sf)
      = [] := by
    rw [List.filterMap_eq_nil_iff]
    intro e he
    have hefs' : e ∈ removeAllPaths fs ((list_backups m sf fs).map (fun b => b.path)) :=
      mem_globMatches_mem_fs he
    rcases mem_removeAllPaths.mp hefs' with ⟨hefs, hnotdel⟩
    cases hsf : sf e.1 with
    | true => simp [mkBackupRecord, hsf]
    | false =>
        exfalso
        have heg : e ∈ globMatches m fs := by
          rcases List.mem_append.mp he with hh | hh
          · exact List.mem_append.mpr
              (Or.inl (List.mem_filter.mpr ⟨hefs, (List.mem_filter.mp hh).2⟩))
          · exact List.mem_append.mpr
              (Or.inr (List.mem_filter.mpr ⟨hefs, (List.mem_filter.mp hh).2⟩))
        cases hmk : mkBackupRecord sf e with
        | none => simp [mkBackupRecord, hsf] at hmk
        | some r =>
            have hrl : r ∈ list_backups m sf fs :=
              (sortByCreatedDesc_perm _).mem_iff.mpr
                (List.mem_filterMap.mpr ⟨e, heg, hmk⟩)
            exact hnotdel
              (List.mem_map.mpr ⟨r, hrl, (mkBackupRecord_some hmk).1⟩)
  rw [list_backups, hnil]
  rfl

/-- Witness for C10: one backup, `keep_count = 0`: everything deleted,
store empty afterwards. -/
theorem C10_cleanup_keep_zero_witness :
    (list_backups ⟨["bk"], ["data", "app.db"], ["documents"], ["cwd"]⟩ (fun _ => false)
      [(["bk", "a.db"], ⟨FileData.bytes [1], 100⟩)] ≠ []) ∧
    list_backups ⟨["bk"], ["data", "app.db"], ["documents"], ["cwd"]⟩ (fun _ => false)
      (cleanup_old_backups ⟨["bk"], ["data", "app.db"], ["documents"], ["cwd"]⟩
        (fun _ => false) (fun _ => false)
        [(["bk", "a.db"], ⟨FileData.bytes [1], 100⟩)] 0).1 = [] :=
  ⟨by decide,
   (C10_cleanup_keep_zero ⟨["bk"], ["data", "app.db"], ["documents"], ["cwd"]⟩
     (fun _ => false) [(["bk", "a.db"], ⟨FileData.bytes [1], 100⟩)] (by decide)).2.2⟩

/-- Unfolding of a database-only restore when the artifact at `bp` holds
exactly the live database's file info `dbi`: the safety copy is written,
then the artifact's bytes are copied over the live database. -/
theorem aux_restore_db_only (m : BackupManager) (g : FS) (now : Nat)
    (dbi : FileInfo) (bp : FsPath)
    (hsfx : pathSuffix bp = ".db")
    (hdb : fsFind g m.database_path = some dbi)
    (hbp : fsFind g bp = some dbi) :
    restore_backup m (fun _ _ => false) now g bp true false
      = (fsWrite (fsWrite g (beforeRestorePath m) dbi) m.database_path dbi, true,
         "Database restored successfully from " ++ baseName bp) := by
  have hex_db : fsExists g m.database_path = true := by rw [fsExists, hdb]; rfl
  have hex_bp : fsExists g bp = true := by rw [fsExists, hbp]; rfl
  have hfs1 : fsFind (fsWrite g (beforeRestorePath m) dbi) bp = some dbi := by
    by_cases hq : bp = beforeRestorePath m
    · rw [hq, fsFind_fsWrite_self]
    · rw [fsFind_fsWrite_ne _ dbi hq]; exact hbp
  simp only [restore_backup, hex_bp, hsfx, restore_database_only, hex_db, copy2,
    hdb, hfs1, if_true, Bool.false_eq_true, if_false]

/-- Claim C6: `create_database_only_backup` copies the live database
file verbatim (the whole file info, bytes and metadata, via
`shutil.copy2`) to `backup_root / db_backup_{ts}.db`, and restoring that
artifact makes the live database file byte-identical to the one backed
up. -/
theorem C6_database_only_round_trip (m : BackupManager) (fs : FS) (ts : String)
    (now : Nat) (dbi : FileInfo)
    (hdb : fsFind fs m.database_path = some dbi) :
    (create_database_only_backup m fs ts).2.1 = true ∧
    (create_database_only_backup m fs ts).2.2.1
      = some (m.backup_root ++ ["db_backup_" ++ ts ++ ".db"]) ∧
    fsFind (create_database_only_backup m fs ts).1
      (m.backup_root ++ ["db_backup_" ++ ts ++ ".db"]) = some dbi ∧
    (restore_backup m (fun _ _ => false) now (create_database_only_backup m fs ts).1
       (m.backup_root ++ ["db_backup_" ++ ts ++ ".db"]) true false).2.1 = true ∧
    fsFind (restore_backup m (fun _ _ => false) now
       (create_database_only_backup m fs ts).1
       (m.backup_root ++ ["db_backup_" ++ ts ++ ".db"]) true false).1 m.database_path
      = some dbi := by
  have hsfx : pathSuffix (m.backup_root ++ ["db_backup_" ++ ts ++ ".db"]) = ".db" :=
    pathSuffix_db_backup m.backup_root ts
  have hcre : create_database_only_backup m fs ts
      = (fsWrite fs (m.backup_root ++ ["db_backup_" ++ ts ++ ".db"]) dbi, true,
         some (m.backup_root ++ ["db_backup_" ++ ts ++ ".db"]),
         "Database backup created: " ++ ("db_backup_" ++ ts ++ ".db") ++ " ("
           ++ get_readable_size (dataSize dbi.data) ++ ")") := by
    simp only [create_database_only_backup, hdb]
  have hcre1 : (create_database_only_backup m fs ts).1
      = fsWrite fs (m.backup_root ++ ["db_backup_" ++ ts ++ ".db"]) dbi := by
    rw [hcre]
  have hfind_db : fsFind (fsWrite fs (m.backup_root ++ ["db_backup_" ++ ts ++ ".db"]) dbi)
      m.database_path = some dbi := by
    by_cases hq : m.database_path = m.backup_root ++ ["db_backup_" ++ ts ++ ".db"]
    · rw [hq, fsFind_fsWrite_self]
    · rw [fsFind_fsWrite_ne fs dbi hq]; exact hdb
  have hfind_bp : fsFind (fsWrite fs (m.backup_root ++ ["db_backup_" ++ ts ++ ".db"]) dbi)
      (m.backup_root ++ ["db_backup_" ++ ts ++ ".db"]) = some dbi :=
    fsFind_fsWrite_self _ _ _
  have hro := aux_restore_db_only m
    (fsWrite fs (m.backup_root ++ ["db_backup_" ++ ts ++ ".db"]) dbi) now dbi
    (m.backup_root ++ ["db_backup_" ++ ts ++ ".db"]) hsfx hfind_db hfind_bp
  refine ⟨by rw [hcre], by rw [hcre], ?_, ?_, ?_⟩
  · rw [hcre1]
    exact fsFind_fsWrite_self _ _ _
  · rw [hcre1, hro]
  · rw [hcre1, hro]
    exact fsFind_fsWrite_self _ _ _

/-- Witness for C6: a concrete database file round-trips. -/
theorem C6_database_only_round_trip_witness :
    fsFind [(["data", "app.db"], ⟨FileData.bytes [1, 2, 3], 100⟩)]
      (["data", "app.db"] : FsPath) = some ⟨FileData.bytes [1, 2, 3], 100⟩ ∧
    fsFind (restore_backup ⟨["bk"], ["data", "app.db"], ["documents"], ["cwd"]⟩
       (fun _ _ => false) 300
       (create_database_only_backup ⟨["bk"], ["data", "app.db"], ["documents"], ["cwd"]⟩
         [(["data", "app.db"], ⟨FileData.bytes [1, 2, 3], 100⟩)] "t").1
       (["bk", "db_backup_t.db"]) true false).1 ["data", "app.db"]
      = some ⟨FileData.bytes [1, 2, 3], 100⟩ :=
  ⟨by decide,
   (C6_database_only_round_trip ⟨["bk"], ["data", "app.db"], ["documents"], ["cwd"]⟩
     [(["data", "app.db"], ⟨FileData.bytes [1, 2, 3], 100⟩)] "t" 300
     ⟨FileData.bytes [1, 2, 3], 100⟩ (by decide)).2.2.2.2⟩

/-- Claim C3 (amended): whenever the live database exists, a dispatched
restore creates a safety copy of it before overwriting —
`_before_restore.db` for database-only restores, where it still holds
the pre-restore database after the call whether or not the subsequent
overwrite copy fails; and `_safety_backup.db` for full restores, where
it still holds the pre-restore database after the call only provided no
archive entry's extraction target equals the safety path (extraction
runs after the safety copy is taken and can overwrite it — see
`C3_counterexample`); and when creating the safety copy fails, the
restore aborts with a failure result and the state, in particular the
live database, unchanged. -/
theorem C3_safety_copy_invariant (m : BackupManager) (cf : FsPath → FsPath → Bool)
    (now : Nat) (fs : FS) (bf : FsPath) (rd rc : Bool) (dbi : FileInfo)
    (hdb : fsFind fs m.database_path = some dbi) :
    (pathSuffix bf = ".db" → fsExists fs bf = true →
      cf m.database_path (beforeRestorePath m) = false →
      beforeRestorePath m ≠ m.database_path →
      fsFind (restore_backup m cf now fs bf rd rc).1 (beforeRestorePath m)
        = some dbi) ∧
    (∀ es tz, pathSuffix bf = ".zip" →
      fsFind fs bf = some ⟨FileData.zip es, tz⟩ →
      cf m.database_path (safetyBackupPath m) = false →
      bf ≠ safetyBackupPath m →
      (∀ e ∈ es, parentDir (parentDir m.database_path) ++ e.1 ≠ safetyBackupPath m) →
      (∀ e ∈ es, parentDir m.documents_path ++ e.1 ≠ safetyBackupPath m) →
      m.cwd ++ ["config.ini"] ≠ safetyBackupPath m →
      (restore_backup m cf now fs bf rd rc).2.1 = true ∧
      fsFind (restore_backup m cf now fs bf rd rc).1 (safetyBackupPath m)
        = some dbi) ∧
    (pathSuffix bf = ".db" → fsExists fs bf = true →
      cf m.database_path (beforeRestorePath m) = true →
      restore_backup m cf now fs bf rd rc
        = (fs, false, "Database restore failed: copy error")) ∧
    (pathSuffix bf = ".zip" → fsExists fs bf = true →
      cf m.database_path (safetyBackupPath m) = true →
      restore_backup m cf now fs bf rd rc
        = (fs, false, "Full restore failed: copy error")) := by
  have hexdb : fsExists fs m.database_path = true := by rw [fsExists, hdb]; rfl
  refine ⟨?_, ?_, ?_, ?_⟩
  · -- database-only: the safety copy is on disk afterwards whether the
    -- subsequent overwrite copy succeeds or fails
    intro hsfx hex hcf1 hne
    obtain ⟨w, hw⟩ := Option.isSome_iff_exists.mp (by rw [fsExists] at hex; exact hex)
    have hro : restore_backup m cf now fs bf rd rc
        = restore_database_only m cf fs bf := by
      simp only [restore_backup, hex, eq_true hsfx, if_true]
    by_cases hcf2 : cf bf m.database_path = true
    · have hrdo : restore_database_only m cf fs bf
          = (fsWrite fs (beforeRestorePath m) dbi, false,
             "Database restore failed: copy error") := by
        simp only [restore_database_only, hexdb, if_true, copy2, hcf1, hcf2,
          Bool.false_eq_true, if_false, hdb]
      rw [hro, hrdo]
      exact fsFind_fsWrite_self _ _ _
    · have hcf2f : cf bf m.database_path = false := by
        revert hcf2; cases cf bf m.database_path <;> simp
      obtain ⟨v, hvv⟩ : ∃ v, fsFind (fsWrite fs (beforeRestorePath m) dbi) bf = some v := by
        by_cases hq : bf = beforeRestorePath m
        · exact ⟨dbi, by rw [hq, fsFind_fsWrite_self]⟩
        · exact ⟨w, by rw [fsFind_fsWrite_ne _ dbi hq]; exact hw⟩
      have hrdo : restore_database_only m cf fs bf
          = (fsWrite (fsWrite fs (beforeRestorePath m) dbi) m.database_path v, true,
             "Database restored successfully from " ++ baseName bf) := by
        simp only [restore_database_only, hexdb, if_true, copy2, hcf1, hcf2f, hdb, hvv,
          Bool.false_eq_true, if_false]
      rw [hro, hrdo]
      rw [fsFind_fsWrite_ne _ v hne]
      exact fsFind_fsWrite_self _ _ _
  · -- full restore, no failure
    intro es tz hsfx hfbf hcf hbfne hdbT hdocT hcfgne
    have hexbf : fsExists fs bf = true := by rw [fsExists, hfbf]; rfl
    have hnd : ¬ (pathSuffix bf = ".db") := by rw [hsfx]; decide
    have hro : restore_backup m cf now fs bf rd rc
        = restore_full_backup m cf now fs bf rd rc := by
      simp only [restore_backup, hexbf, eq_false hnd, eq_true hsfx, if_true, if_false]
    have h1 : fsFind (fsWrite fs (safetyBackupPath m) dbi) bf
        = some ⟨FileData.zip es, tz⟩ := by
      rw [fsFind_fsWrite_ne _ dbi hbfne]; exact hfbf
    have hrfb : restore_full_backup m cf now fs bf rd rc
        = ((if rc then
              match es.find? (fun e => decide (e.1 = ["config.ini"])) with
              | some e => fsWrite
                  (writeAll
                    (writeAll (fsWrite fs (safetyBackupPath m) dbi)
                      ((es.filter (fun e => arcHeadIs "database" e.1)).map
                        (fun e => (parentDir (parentDir m.database_path) ++ e.1,
                          (⟨FileData.bytes e.2.2, now⟩ : FileInfo)))))
                    (((if rd then es.filter (fun e => arcHeadIs "documents" e.1)
                       else []).map
                      (fun e => (parentDir m.documents_path ++ e.1,
                        (⟨FileData.bytes e.2.2, now⟩ : FileInfo))))))
                  (m.cwd ++ ["config.ini"]) ⟨FileData.bytes e.2.2, now⟩
              | none => writeAll
                  (writeAll (fsWrite fs (safetyBackupPath m) dbi)
                    ((es.filter (fun e => arcHeadIs "database" e.1)).map
                      (fun e => (parentDir (parentDir m.database_path) ++ e.1,
                        (⟨FileData.bytes e.2.2, now⟩ : FileInfo)))))
                  (((if rd then es.filter (fun e => arcHeadIs "documents" e.1)
                     else []).map
                    (fun e => (parentDir m.documents_path ++ e.1,
                      (⟨FileData.bytes e.2.2, now⟩ : FileInfo)))))
            else writeAll
                (writeAll (fsWrite fs (safetyBackupPath m) dbi)
                  ((es.filter (fun e => arcHeadIs "database" e.1)).map
                    (fun e => (parentDir (parentDir m.database_path) ++ e.1,
                      (⟨FileData.bytes e.2.2, now⟩ : FileInfo)))))
                (((if rd then es.filter (fun e => arcHeadIs "documents" e.1)
                   else []).map
                  (fun e => (parentDir m.documents_path ++ e.1,
                    (⟨FileData.bytes e.2.2, now⟩ : FileInfo))))),
            true, "System restored successfully from " ++ baseName bf)) := by
      simp only [restore_full_backup, hexdb, if_true, copy2, hcf, Bool.false_eq_true,
        if_false, hdb, h1]
    have hdb_ne : ∀ x ∈ ((es.filter (fun e => arcHeadIs "database" e.1)).map
        (fun e => (parentDir (parentDir m.database_path) ++ e.1,
          (⟨FileData.bytes e.2.2, now⟩ : FileInfo)))), x.1 ≠ safetyBackupPath m := by
      intro x hx
      rcases List.mem_map.mp hx with ⟨e, he, hxe⟩
      rw [← hxe]
      exact hdbT e (List.mem_of_mem_filter he)
    have hdoc_ne : ∀ x ∈ (((if rd then es.filter (fun e => arcHeadIs "documents" e.1)
        else []).map (fun e => (parentDir m.documents_path ++ e.1,
          (⟨FileData.bytes e.2.2, now⟩ : FileInfo))))), x.1 ≠ safetyBackupPath m := by
      intro x hx
      rcases List.mem_map.mp hx with ⟨e, he, hxe⟩
      have hees : e ∈ es := by
        by_cases hrd : rd = true
        · rw [if_pos hrd] at he; exact List.mem_of_mem_filter he
        · rw [if_neg hrd] at he; cases he
      rw [← hxe]
      exact hdocT e hees
    have hg3 : fsFind (writeAll
        (writeAll (fsWrite fs (safetyBackupPath m) dbi)
          ((es.filter (fun e => arcHeadIs "database" e.1)).map
            (fun e => (parentDir (parentDir m.database_path) ++ e.1,
              (⟨FileData.bytes e.2.2, now⟩ : FileInfo)))))
        (((if rd then es.filter (fun e => arcHeadIs "documents" e.1) else []).map
          (fun e => (parentDir m.documents_path ++ e.1,
            (⟨FileData.bytes e.2.2, now⟩ : FileInfo))))))
        (safetyBackupPath m) = some dbi := by
      rw [fsFind_writeAll_of_ne hdoc_ne, fsFind_writeAll_of_ne hdb_ne]
      exact fsFind_fsWrite_self _ _ _
    rw [hro, hrfb]
    refine ⟨rfl, ?_⟩
    by_cases hrc : rc = true
    · rw [if_pos hrc]
      cases hfc : es.find? (fun e => decide (e.1 = ["config.ini"])) with
      | none => exact hg3
      | some e =>
          rw [fsFind_fsWrite_ne _ _ (Ne.symm hcfgne)]
          exact hg3
    · rw [if_neg hrc]
      exact hg3
  · -- database-only, safety-copy failure aborts
    intro hsfx hex hcf1
    simp only [restore_backup, hex, eq_true hsfx, if_true, restore_database_only,
      hexdb, copy2, hcf1]
  · -- full restore, safety-copy failure aborts
    intro hsfx hex hcf1
    have hnd : ¬ (pathSuffix bf = ".db") := by rw [hsfx]; decide
    simp only [restore_backup, hex, eq_false hnd, eq_true hsfx, if_true, if_false,
      restore_full_backup, hexdb, copy2, hcf1]

/-- Witness for C3: restoring a `.db` artifact while the live database
exists leaves `data/app_before_restore.db` holding the pre-restore
database bytes. -/
theorem C3_safety_copy_invariant_witness :
    fsFind [(["data", "app.db"], ⟨FileData.bytes [9], 50⟩),
            (["bk", "old.db"], ⟨FileData.bytes [1], 10⟩)]
      (["data", "app.db"] : FsPath) = some ⟨FileData.bytes [9], 50⟩ ∧
    fsFind (restore_backup ⟨["bk"], ["data", "app.db"], ["documents"], ["cwd"]⟩
        (fun _ _ => false) 99
        [(["data", "app.db"], ⟨FileData.bytes [9], 50⟩),
         (["bk", "old.db"], ⟨FileData.bytes [1], 10⟩)]
        ["bk", "old.db"] true false).1
      (beforeRestorePath ⟨["bk"], ["data", "app.db"], ["documents"], ["cwd"]⟩)
      = some ⟨FileData.bytes [9], 50⟩ :=
  ⟨by decide,
   (C3_safety_copy_invariant ⟨["bk"], ["data", "app.db"], ["documents"], ["cwd"]⟩
       (fun _ _ => false) 99
       [(["data", "app.db"], ⟨FileData.bytes [9], 50⟩),
        (["bk", "old.db"], ⟨FileData.bytes [1], 10⟩)]
       ["bk", "old.db"] true false ⟨FileData.bytes [9], 50⟩ (by decide)).1
     (by decide) (by decide) rfl (by decide)⟩

/-- Claim C3 counterexample: with the database directory inside the
documents tree (`database_path = documents/data/app.db`,
`documents_path = documents`), the code's own artifacts refute the
safety-copy invariant.  A first full restore leaves
`documents/data/app_safety_backup.db` (bytes `[1]`) inside the live
documents tree; the application then updates the database to bytes
`[2]`; `create_backup(include_documents=True)` archives the stale
safety file as the entry `documents/data/app_safety_backup.db`;
restoring that archive while the live database (bytes `[2]`) exists
first writes the safety copy (bytes `[2]`), then the document
extraction loop (lines 199-203) extracts the archived entry onto the
very same path — so the call reports success but afterwards the
`_safety_backup` file holds the stale bytes `[1]`, not the pre-restore
database bytes `[2]`. -/
theorem C3_counterexample :
    safetyBackupPath ⟨["bk"], ["documents", "data", "app.db"], ["documents"], ["cwd"]⟩
      = ["documents", "data", "app_safety_backup.db"] ∧
    fsFind (create_backup ⟨["bk"], ["documents", "data", "app.db"], ["documents"], ["cwd"]⟩
        (fsWrite (restore_backup
            ⟨["bk"], ["documents", "data", "app.db"], ["documents"], ["cwd"]⟩
            (fun _ _ => false) 150
            [(["documents", "data", "app.db"], ⟨FileData.bytes [1], 10⟩),
             (["bk", "backup_t1.zip"],
              ⟨FileData.zip [(["database", "app.db"], 10, [1]),
                             (["documents", "data", "app.db"], 10, [1])], 100⟩)]
            ["bk", "backup_t1.zip"] true false).1
          ["documents", "data", "app.db"] ⟨FileData.bytes [2], 160⟩)
        "t2" 200 true false none).1
      ["documents", "data", "app.db"] = some ⟨FileData.bytes [2], 160⟩ ∧
    (restore_backup ⟨["bk"], ["documents", "data", "app.db"], ["documents"], ["cwd"]⟩
      (fun _ _ => false) 300
      (create_backup ⟨["bk"], ["documents", "data", "app.db"], ["documents"], ["cwd"]⟩
        (fsWrite (restore_backup
            ⟨["bk"], ["documents", "data", "app.db"], ["documents"], ["cwd"]⟩
            (fun _ _ => false) 150
            [(["documents", "data", "app.db"], ⟨FileData.bytes [1], 10⟩),
             (["bk", "backup_t1.zip"],
              ⟨FileData.zip [(["database", "app.db"], 10, [1]),
                             (["documents", "data", "app.db"], 10, [1])], 100⟩)]
            ["bk", "backup_t1.zip"] true false).1
          ["documents", "data", "app.db"] ⟨FileData.bytes [2], 160⟩)
        "t2" 200 true false none).1
      ["bk", "backup_t2.zip"] true false).2.1 = true ∧
    fsFind (restore_backup ⟨["bk"], ["documents", "data", "app.db"], ["documents"], ["cwd"]⟩
      (fun _ _ => false) 300
      (create_backup ⟨["bk"], ["documents", "data", "app.db"], ["documents"], ["cwd"]⟩
        (fsWrite (restore_backup
            ⟨["bk"], ["documents", "data", "app.db"], ["documents"], ["cwd"]⟩
            (fun _ _ => false) 150
            [(["documents", "data", "app.db"], ⟨FileData.bytes [1], 10⟩),
             (["bk", "backup_t1.zip"],
              ⟨FileData.zip [(["database", "app.db"], 10, [1]),
                             (["documents", "data", "app.db"], 10, [1])], 100⟩)]
            ["bk", "backup_t1.zip"] true false).1
          ["documents", "data", "app.db"] ⟨FileData.bytes [2], 160⟩)
        "t2" 200 true false none).1
      ["bk", "backup_t2.zip"] true false).1
      ["documents", "data", "app_safety_backup.db"] = some ⟨FileData.bytes [1], 300⟩ ∧
    ¬ fsFind (restore_backup ⟨["bk"], ["documents", "data", "app.db"], ["documents"], ["cwd"]⟩
      (fun _ _ => false) 300
      (create_backup ⟨["bk"], ["documents", "data", "app.db"], ["documents"], ["cwd"]⟩
        (fsWrite (restore_backup
            ⟨["bk"], ["documents", "data", "app.db"], ["documents"], ["cwd"]⟩
            (fun _ _ => false) 150
            [(["documents", "data", "app.db"], ⟨FileData.bytes [1], 10⟩),
             (["bk", "backup_t1.zip"],
              ⟨FileData.zip [(["database", "app.db"], 10, [1]),
                             (["documents", "data", "app.db"], 10, [1])], 100⟩)]
            ["bk", "backup_t1.zip"] true false).1
          ["documents", "data", "app.db"] ⟨FileData.bytes [2], 160⟩)
        "t2" 200 true false none).1
      ["bk", "backup_t2.zip"] true false).1
      ["documents", "data", "app_safety_backup.db"] = some ⟨FileData.bytes [2], 160⟩ :=
  ⟨by decide, by decide, by decide, by decide, by decide⟩

/-- Claim C2, evaluated at the repository's own default layout
(`config_loader.py` fallbacks: `DATABASE_PATH = data/maintenance_management.db`,
`DOCUMENT_ROOT = documents`, `BACKUP_PATH = data/backups`): a full backup
of a database and a document, restored onto a fresh live location,
reports success and restores the document — but the database entry is
extracted to `database_path.parent.parent / "database" / ...`, i.e. the
stray path `database/maintenance_management.db`, and the live database
path is left missing.  The round-trip claim fails on the code for every
layout whose database directory is not literally named `database`. -/
theorem C2_default_layout_restore_misses_live_db :
    (create_backup ⟨["data", "backups"], ["data", "maintenance_management.db"],
        ["documents"], ["cwd"]⟩
      [(["data", "maintenance_management.db"], ⟨FileData.bytes [1, 2, 3], 100⟩),
       (["documents", "assets", "f.pdf"], ⟨FileData.bytes [7, 8], 50⟩)]
      "ts" 200 true false none).2.1 = true ∧
    (create_backup ⟨["data", "backups"], ["data", "maintenance_management.db"],
        ["documents"], ["cwd"]⟩
      [(["data", "maintenance_management.db"], ⟨FileData.bytes [1, 2, 3], 100⟩),
       (["documents", "assets", "f.pdf"], ⟨FileData.bytes [7, 8], 50⟩)]
      "ts" 200 true false none).2.2.1 = some ["data", "backups", "backup_ts.zip"] ∧
    (restore_backup ⟨["data", "backups"], ["data", "maintenance_management.db"],
        ["documents"], ["cwd"]⟩ (fun _ _ => false) 300
      (fsRemove (fsRemove
        (create_backup ⟨["data", "backups"], ["data", "maintenance_management.db"],
            ["documents"], ["cwd"]⟩
          [(["data", "maintenance_management.db"], ⟨FileData.bytes [1, 2, 3], 100⟩),
           (["documents", "assets", "f.pdf"], ⟨FileData.bytes [7, 8], 50⟩)]
          "ts" 200 true false none).1
        ["data", "maintenance_management.db"]) ["documents", "assets", "f.pdf"])
      ["data", "backups", "backup_ts.zip"] true false).2.1 = true ∧
    fsFind (restore_backup ⟨["data", "backups"], ["data", "maintenance_management.db"],
        ["documents"], ["cwd"]⟩ (fun _ _ => false) 300
      (fsRemove (fsRemove
        (create_backup ⟨["data", "backups"], ["data", "maintenance_management.db"],
            ["documents"], ["cwd"]⟩
          [(["data", "maintenance_management.db"], ⟨FileData.bytes [1, 2, 3], 100⟩),
           (["documents", "assets", "f.pdf"], ⟨FileData.bytes [7, 8], 50⟩)]
          "ts" 200 true false none).1
        ["data", "maintenance_management.db"]) ["documents", "assets", "f.pdf"])
      ["data", "backups", "backup_ts.zip"] true false).1
      ["data", "maintenance_management.db"] = none ∧
    fsFind (restore_backup ⟨["data", "backups"], ["data", "maintenance_management.db"],
        ["documents"], ["cwd"]⟩ (fun _ _ => false) 300
      (fsRemove (fsRemove
        (create_backup ⟨["data", "backups"], ["data", "maintenance_management.db"],
            ["documents"], ["cwd"]⟩
          [(["data", "maintenance_management.db"], ⟨FileData.bytes [1, 2, 3], 100⟩),
           (["documents", "assets", "f.pdf"], ⟨FileData.bytes [7, 8], 50⟩)]
          "ts" 200 true false none).1
        ["data", "maintenance_management.db"]) ["documents", "assets", "f.pdf"])
      ["data", "backups", "backup_ts.zip"] true false).1
      ["database", "maintenance_management.db"] = some ⟨FileData.bytes [1, 2, 3], 300⟩ ∧
    fsFind (restore_backup ⟨["data", "backups"], ["data", "maintenance_management.db"],
        ["documents"], ["cwd"]⟩ (fun _ _ => false) 300
      (fsRemove (fsRemove
        (create_backup ⟨["data", "backups"], ["data", "maintenance_management.db"],
            ["documents"], ["cwd"]⟩
          [(["data", "maintenance_management.db"], ⟨FileData.bytes [1, 2, 3], 100⟩),
           (["documents", "assets", "f.pdf"], ⟨FileData.bytes [7, 8], 50⟩)]
          "ts" 200 true false none).1
        ["data", "maintenance_management.db"]) ["documents", "assets", "f.pdf"])
      ["data", "backups", "backup_ts.zip"] true false).1
      ["documents", "assets", "f.pdf"] = some ⟨FileData.bytes [7, 8], 300⟩ :=
  ⟨by decide, by decide, by decide, by decide, by decide, by decide⟩

/-- Witness for C8: with zero backups the statistics are the explicit
empty-state record. -/
theorem C8_statistics_consistency_witness :
    list_backups ⟨["bk"], ["data", "app.db"], ["documents"], ["cwd"]⟩
      (fun _ => false) [] = [] ∧
    get_backup_statistics ⟨["bk"], ["data", "app.db"], ["documents"], ["cwd"]⟩
      (fun _ => false) [] = ⟨0, "0 B", 0, none, none⟩ :=
  ⟨by decide,
   (C8_statistics_consistency ⟨["bk"], ["data", "app.db"], ["documents"], ["cwd"]⟩
     (fun _ => false) []).2.2.2.2 (by decide)⟩
